import Mathlib

/-!
Shallow embedding of the replay engine of the `dbtest` repository
(`src/desktop_app/model.py` and `src/desktop_app/controller.py`).

Modelling conventions:
* Python `float` simulation times are modelled as rationals (`ℚ`);
* Python `dict` (insertion ordered) is modelled as an association list,
  with assignment to an existing key keeping its position;
* Python's truthiness of strings (`x or y`, `if not x`) is modelled
  explicitly: `None` and `""` are falsy;
* exceptions are modelled with `Except`.
-/

deriving instance DecidableEq for Except

namespace Sim

/-- `MachineEvent` dataclass (model.py). `time_ts` is carried but never read
by the engine. -/
structure MachineEvent where
  time_min : ℚ
  time_ts : String := ""
  machine : String
  event : String
  product_id : String := ""
  entity_id : String := ""
  from_machine : Option String := none
  to_machine : Option String := none
  queue_length : Option Int := none
deriving DecidableEq, Repr

/-- `Transport` dataclass (model.py). -/
structure Transport where
  product_id : String
  entity_id : String
  from_machine : Option String
  to_machine : Option String
  start_time : ℚ
  end_time : Option ℚ := none
deriving DecidableEq, Repr

/-- `Transport.progress` (model.py lines 31-37). -/
def Transport.progress (t : Transport) (clock : ℚ) : ℚ :=
  match t.end_time with
  | none => 0
  | some et =>
    if et - t.start_time ≤ 0 then 1
    else max 0 (min 1 ((clock - t.start_time) / (et - t.start_time)))

/-- `MachineState` dataclass (model.py). The `transports_out` field is
never read or written by the controller, so it is omitted here. -/
structure MachineState where
  machine : String
  queue : Int := 0
  status : String := "idle"
  last_event : Option String := none
deriving DecidableEq, Repr

/-- Lookup in an insertion-ordered dict modelled as an association list. -/
def dictGet {α β : Type} [DecidableEq α] : List (α × β) → α → Option β
  | [], _ => none
  | (k, v) :: rest, key => if k = key then some v else dictGet rest key

/-- `d[key] = v` on a Python dict: replace in place if present, else append. -/
def dictInsert {α β : Type} [DecidableEq α] : List (α × β) → α → β → List (α × β)
  | [], key, v => [(key, v)]
  | (k, w) :: rest, key, v =>
    if k = key then (k, v) :: rest else (k, w) :: dictInsert rest key v

/-- `d.pop(key, None)` on a Python dict. -/
def dictErase {α β : Type} [DecidableEq α] : List (α × β) → α → List (α × β)
  | [], _ => []
  | (k, w) :: rest, key => if k = key then rest else (k, w) :: dictErase rest key

/-- Stable insertion into a list sorted by `time_min` (the inserted event
goes after all events with equal or smaller time, as Python's stable sort
keeps equal-time events in supplied order). -/
def insertByTime (e : MachineEvent) : List MachineEvent → List MachineEvent
  | [] => [e]
  | x :: xs => if x.time_min ≤ e.time_min then x :: insertByTime e xs else e :: x :: xs

/-- Stable sort of events by `time_min` (`sorted(events, key=...)`). -/
def sortEvents (evs : List MachineEvent) : List MachineEvent :=
  evs.foldl (fun acc e => insertByTime e acc) []

/-- Lexicographic order on code-point lists (Python string comparison). -/
def codesLt : List Nat → List Nat → Bool
  | [], [] => false
  | [], _ :: _ => true
  | _ :: _, [] => false
  | a :: as, b :: bs => if a < b then true else if b < a then false else codesLt as bs

/-- Python `a < b` on strings: lexicographic comparison of code points. -/
def strLt (a b : String) : Bool :=
  codesLt (a.toList.map Char.toNat) (b.toList.map Char.toNat)

/-- Insertion into a lexicographically sorted list of strings. -/
def insertStr (s : String) : List String → List String
  | [] => [s]
  | x :: xs => if strLt x s then x :: insertStr s xs else s :: x :: xs

/-- `sorted(strings)`. -/
def sortStrings (l : List String) : List String :=
  l.foldl (fun acc s => insertStr s acc) []

/-- Membership test on a list of strings. -/
def memStr (x : String) : List String → Bool
  | [] => false
  | y :: ys => if y = x then true else memStr x ys

/-- Distinct elements of a list of strings (the set `{...}`; which
duplicate is kept is irrelevant because the result is sorted). -/
def dedupStr : List String → List String
  | [] => []
  | x :: xs => if memStr x xs then dedupStr xs else x :: dedupStr xs

/-- `sorted({event.machine for event in events if event.machine})`. -/
def machinesOf (evs : List MachineEvent) : List String :=
  sortStrings (dedupStr ((evs.map MachineEvent.machine).filter (fun m => m != "")))

/-- `SimulationData` (model.py). The `machine_states` dict built in
`__init__` is never read by the controller (which builds its own), so it
is omitted here. -/
structure SimulationData where
  events : List MachineEvent
  start_time : ℚ
  end_time : ℚ
  machines : List String
deriving DecidableEq, Repr

/-- `SimulationData.__init__` (model.py lines 61-70): sort, fail on an
empty log, record the first and last times and the sorted distinct
non-empty machine ids. -/
def fromEvents (evs : List MachineEvent) : Except String SimulationData :=
  match sortEvents evs with
  | [] => Except.error "No events available in the dataset"
  | e :: rest =>
    Except.ok
      { events := e :: rest
        start_time := e.time_min
        end_time := ((e :: rest).getLast (List.cons_ne_nil e rest)).time_min
        machines := machinesOf (e :: rest) }

/-- The mutable state of `SimulationController`. -/
structure Engine where
  data : SimulationData
  current_time : ℚ
  pointer : Nat
  machine_states : List (String × MachineState)
  transports : List ((String × String) × Transport)
  active_transports : List ((String × String) × Transport)
deriving DecidableEq, Repr

/-- `SimulationController.reset`. -/
def Engine.reset (s : Engine) : Engine :=
  { s with
    current_time := s.data.start_time
    pointer := 0
    machine_states := s.data.machines.map (fun n => (n, { machine := n }))
    transports := []
    active_transports := [] }

/-- `SimulationController.__init__` (stores the data and calls `reset`). -/
def initEngine (d : SimulationData) : Engine :=
  Engine.reset
    { data := d, current_time := 0, pointer := 0
      machine_states := [], transports := [], active_transports := [] }

/-- `key = (event.product_id or event.entity_id, event.entity_id or event.product_id)`. -/
def transportKey (e : MachineEvent) : String × String :=
  ((if e.product_id = "" then e.entity_id else e.product_id),
   (if e.entity_id = "" then e.product_id else e.entity_id))

/-- Python `o or m` where `o` is an optional string and `m` a string:
falsy (`None` or `""`) `o` yields `m`. -/
def strOrElse (o : Option String) (m : String) : Option String :=
  match o with
  | some v => if v = "" then some m else some v
  | none => some m

/-- Python `m or o` where `m` is a string and `o` an optional string. -/
def strOrOpt (m : String) (o : Option String) : Option String :=
  if m = "" then o else some m

/-- Python `not o` for an optional string: `None` and `""` are falsy. -/
def optFalsy (o : Option String) : Bool :=
  match o with
  | some v => v == ""
  | none => true

/-- Python `s.startswith(p)`, computed on the character lists. -/
def strStarts (s p : String) : Bool :=
  p.toList.isPrefixOf s.toList

/-- The effect of `_handle_transport` (controller.py lines 67-84) on the
transport registry, the only state it mutates. -/
def handleTransportReg (reg : List ((String × String) × Transport)) (e : MachineEvent) :
    List ((String × String) × Transport) :=
  let key := transportKey e
  let transport := dictGet reg key
  if e.event = "TRANSPORT_START" then
    let t : Transport :=
      { product_id := e.product_id
        entity_id := e.entity_id
        from_machine := strOrElse e.from_machine e.machine
        to_machine := e.to_machine
        start_time := e.time_min }
    dictInsert reg key t
  else if e.event = "TRANSPORT_END" then
    match transport with
    | some t =>
      let t1 := if optFalsy t.to_machine
        then { t with to_machine := strOrOpt e.machine e.to_machine } else t
      dictInsert reg key { t1 with end_time := some e.time_min }
    | none => reg
  else if e.event = "TRANSPORT_CANCEL" then
    match transport with
    | some _ => dictErase reg key
    | none => reg
  else reg

/-- `SimulationController._handle_transport`. -/
def Engine.handleTransport (s : Engine) (e : MachineEvent) : Engine :=
  { s with transports := handleTransportReg s.transports e }

/-- `state = self.machine_states.get(event.machine)` with lazy creation. -/
def lookupState (ms : List (String × MachineState)) (m : String) : MachineState :=
  match dictGet ms m with
  | some st => st
  | none => { machine := m }

/-- The absolute queue override: `if event.queue_length is not None:
state.queue = max(0, event.queue_length)`. -/
def applyQueueOverride (st : MachineState) (e : MachineEvent) : MachineState :=
  match e.queue_length with
  | some ql => { st with queue := max 0 ql }
  | none => st

/-- The `if/elif` chain of `_apply_event` restricted to its effect on the
machine state (the transport kinds leave the machine state unchanged). -/
def applyKind (st : MachineState) (e : MachineEvent) : MachineState :=
  if e.event = "QUEUE_IN" then { st with queue := max 0 (st.queue + 1) }
  else if e.event = "QUEUE_OUT" then { st with queue := max 0 (st.queue - 1) }
  else if e.event = "PROC_START" then { st with status := "processing" }
  else if e.event = "PROC_END" ∨ e.event = "PROC_COMPLETE" then { st with status := "idle" }
  else if e.event = "BREAKDOWN_START" then { st with status := "breakdown" }
  else if e.event = "BREAKDOWN_END" ∨ e.event = "BREAKDOWN_CLEAR" then { st with status := "idle" }
  else st

/-- `SimulationController._apply_event` (controller.py lines 44-66).
The machine-state entry is looked up (or lazily created), `last_event`
is set, the absolute `queue_length` override applies, then the kind
chain; the final `elif event.event.startswith("TRANSPORT_")` branch is
reachable exactly when the event kind starts with `TRANSPORT_`, since no
kind named in an earlier branch does. -/
def Engine.applyEvent (s : Engine) (e : MachineEvent) : Engine :=
  let st := applyKind (applyQueueOverride
    { lookupState s.machine_states e.machine with last_event := some e.event } e) e
  let s1 := { s with machine_states := dictInsert s.machine_states e.machine st }
  if strStarts e.event "TRANSPORT_" then s1.handleTransport e else s1

/-- Eviction test of `_refresh_active_transports`:
`transport.end_time is not None and self.current_time > transport.end_time + 0.1`. -/
def shouldEvict (current : ℚ) (t : Transport) : Bool :=
  match t.end_time with
  | some et => decide (et + 1/10 < current)
  | none => false

/-- `clone = replace(transport); if clone.to_machine is None:
clone.to_machine = transport.to_machine or transport.from_machine`. -/
def refreshClone (t : Transport) : Transport :=
  match t.to_machine with
  | none => { t with to_machine := t.from_machine }
  | some _ => t

/-- `SimulationController._refresh_active_transports` (controller.py
lines 86-98): rebuild the active snapshot from the non-evicted entries
(cloned, destination defaulted) and drop the evicted entries from the
registry. -/
def keptTransports (current : ℚ) (reg : List ((String × String) × Transport)) :
    List ((String × String) × Transport) :=
  reg.filter (fun kv => !(shouldEvict current kv.2))

/-- `SimulationController._refresh_active_transports` continued: the
snapshot holds clones of the kept entries, the registry keeps them as is. -/
def Engine.refreshActiveTransports (s : Engine) : Engine :=
  { s with
    active_transports := (keptTransports s.current_time s.transports).map
      (fun kv => (kv.1, refreshClone kv.2))
    transports := keptTransports s.current_time s.transports }

/-- The `while` loop of `advance_to`, with explicit fuel; the loop stops
when the pointer runs past the log or the next event is after the
(already clamped) target. -/
def Engine.applyLoop (s : Engine) (target : ℚ) : Nat → Engine
  | 0 => s
  | fuel + 1 =>
    match s.data.events[s.pointer]? with
    | some e =>
      if e.time_min ≤ target then
        Engine.applyLoop { s.applyEvent e with pointer := s.pointer + 1 } target fuel
      else s
    | none => s

/-- `SimulationController.advance_to` (controller.py lines 35-42). -/
def Engine.advanceTo (s : Engine) (target : ℚ) : Engine :=
  let target := min (max target s.data.start_time) s.data.end_time
  let s1 := s.applyLoop target s.data.events.length
  Engine.refreshActiveTransports { s1 with current_time := target }

/-- `SimulationController.advance`. -/
def Engine.advance (s : Engine) (delta : ℚ) : Engine :=
  s.advanceTo (s.current_time + delta)

/-- `SimulationController.seek`. -/
def Engine.seek (s : Engine) (target : ℚ) : Engine :=
  if target < s.current_time then (s.reset).advanceTo target else s.advanceTo target

/-- `SimulationController.iter_states` (the dict's values, in insertion
order). -/
def Engine.iterStates (s : Engine) : List MachineState :=
  s.machine_states.map (fun kv => kv.2)

/-- One public operation of the controller. -/
inductive Op where
  | reset : Op
  | advance : ℚ → Op
  | advanceTo : ℚ → Op
  | seek : ℚ → Op
deriving DecidableEq, Repr

/-- Run one public operation. -/
def Engine.applyOp (s : Engine) : Op → Engine
  | Op.reset => s.reset
  | Op.advance d => s.advance d
  | Op.advanceTo t => s.advanceTo t
  | Op.seek t => s.seek t

/-- Run a sequence of public operations. -/
def Engine.applyOps (s : Engine) (ops : List Op) : Engine :=
  ops.foldl Engine.applyOp s

/-- The trace of engine states along a sequence of `advance_to` calls
(the initial state included). -/
def Engine.advanceTrace (s : Engine) : List ℚ → List Engine
  | [] => [s]
  | t :: ts => s :: (s.advanceTo t).advanceTrace ts

/-- The log indices consumed by each `advance_to` call of a sequence:
call number `i` applies exactly the events at the indices from the
pointer before the call up to the pointer after it. -/
def Engine.appliedIndices (s : Engine) : List ℚ → List Nat
  | [] => []
  | t :: ts =>
    List.range' s.pointer ((s.advanceTo t).pointer - s.pointer)
      ++ (s.advanceTo t).appliedIndices ts

/-! ### Association-list dictionary lemmas -/

theorem dictGet_insert {α β : Type} [DecidableEq α] (l : List (α × β)) (k : α) (v : β)
    (key : α) : dictGet (dictInsert l k v) key = if key = k then some v else dictGet l key := by
  induction l with
  | nil =>
    by_cases h : key = k
    · subst h
      simp [dictInsert, dictGet]
    · have h' : ¬ k = key := fun hh => h hh.symm
      simp [dictInsert, dictGet, h, h']
  | cons hd tl ih =>
    obtain ⟨k1, v1⟩ := hd
    by_cases h1 : k1 = k
    · subst h1
      by_cases h2 : key = k1
      · subst h2
        simp [dictInsert, dictGet]
      · have h2' : ¬ k1 = key := fun hh => h2 hh.symm
        simp [dictInsert, dictGet, h2, h2']
    · by_cases h2 : k1 = key
      · subst h2
        simp [dictInsert, dictGet, h1]
      · simp [dictInsert, dictGet, h1, h2, ih]

theorem dictGet_mem {α β : Type} [DecidableEq α] {l : List (α × β)} {k : α} {v : β}
    (h : dictGet l k = some v) : (k, v) ∈ l := by
  induction l with
  | nil => simp [dictGet] at h
  | cons hd tl ih =>
    obtain ⟨k1, v1⟩ := hd
    by_cases h1 : k1 = k
    · subst h1
      simp [dictGet] at h
      subst h
      exact List.mem_cons_self _ _
    · simp only [dictGet, if_neg h1] at h
      exact List.mem_cons_of_mem _ (ih h)

theorem dictGet_none_of_not_mem_keys {α β : Type} [DecidableEq α] {l : List (α × β)} {k : α}
    (h : k ∉ l.map Prod.fst) : dictGet l k = none := by
  induction l with
  | nil => rfl
  | cons hd tl ih =>
    obtain ⟨k1, v1⟩ := hd
    simp only [List.map_cons, List.mem_cons, not_or] at h
    have h1 : ¬ k1 = k := fun hh => h.1 hh.symm
    simp only [dictGet, if_neg h1]
    exact ih h.2

theorem dictGet_erase_ne {α β : Type} [DecidableEq α] (l : List (α × β)) {key k : α}
    (h : key ≠ k) : dictGet (dictErase l key) k = dictGet l k := by
  induction l with
  | nil => rfl
  | cons hd tl ih =>
    obtain ⟨k1, v1⟩ := hd
    by_cases h1 : k1 = key
    · subst h1
      simp [dictErase, dictGet, h]
    · by_cases h2 : k1 = k <;> simp [dictErase, dictGet, h1, h2, ih, Ne.symm h]

theorem dictGet_filter_none {α β : Type} [DecidableEq α] {l : List (α × β)} {k : α}
    (p : α × β → Bool) (h : dictGet l k = none) : dictGet (l.filter p) k = none := by
  induction l with
  | nil => rfl
  | cons hd tl ih =>
    obtain ⟨k1, v1⟩ := hd
    by_cases h1 : k1 = k
    · subst h1
      simp [dictGet] at h
    · simp only [dictGet, if_neg h1] at h
      by_cases hp : p (k1, v1) <;> simp [List.filter_cons, hp, dictGet, h1, ih h]

theorem dictGet_mapSnd_none {α β γ : Type} [DecidableEq α] {l : List (α × β)} {k : α}
    (f : β → γ) (h : dictGet l k = none) :
    dictGet (l.map (fun kv => (kv.1, f kv.2))) k = none := by
  induction l with
  | nil => rfl
  | cons hd tl ih =>
    obtain ⟨k1, v1⟩ := hd
    by_cases h1 : k1 = k
    · subst h1
      simp [dictGet] at h
    · simp only [dictGet, if_neg h1] at h
      simp [dictGet, h1, ih h]

theorem dictGet_filter_of_unique {α β : Type} [DecidableEq α] {l : List (α × β)} {k : α}
    {v : β} (p : α × β → Bool) (hnd : (l.map Prod.fst).Nodup) (h : dictGet l k = some v)
    (hp : p (k, v) = false) : dictGet (l.filter p) k = none := by
  induction l with
  | nil => simp [dictGet] at h
  | cons hd tl ih =>
    obtain ⟨k1, v1⟩ := hd
    simp only [List.map_cons, List.nodup_cons] at hnd
    by_cases h1 : k1 = k
    · subst h1
      simp [dictGet] at h
      subst h
      simp only [List.filter_cons, hp]
      simp only [Bool.false_eq_true, if_false]
      exact dictGet_filter_none p (dictGet_none_of_not_mem_keys hnd.1)
    · simp only [dictGet, if_neg h1] at h
      by_cases hq : p (k1, v1) <;> simp [List.filter_cons, hq, dictGet, h1, ih hnd.2 h]

/-! ### Field-preservation and unfolding lemmas -/

theorem applyEvent_machine_states (s : Engine) (e : MachineEvent) :
    (s.applyEvent e).machine_states
      = dictInsert s.machine_states e.machine
          (applyKind (applyQueueOverride
            { lookupState s.machine_states e.machine with last_event := some e.event } e) e) := by
  simp only [Engine.applyEvent, Engine.handleTransport]
  split <;> rfl

theorem applyEvent_transports (s : Engine) (e : MachineEvent) :
    (s.applyEvent e).transports
      = if strStarts e.event "TRANSPORT_" then handleTransportReg s.transports e
        else s.transports := by
  simp only [Engine.applyEvent, Engine.handleTransport]
  split <;> rfl

theorem applyEvent_data (s : Engine) (e : MachineEvent) : (s.applyEvent e).data = s.data := by
  simp only [Engine.applyEvent, Engine.handleTransport]
  split <;> rfl

theorem applyEvent_pointer (s : Engine) (e : MachineEvent) :
    (s.applyEvent e).pointer = s.pointer := by
  simp only [Engine.applyEvent, Engine.handleTransport]
  split <;> rfl

theorem applyLoop_data : ∀ (fuel : Nat) (s : Engine) (t : ℚ),
    (s.applyLoop t fuel).data = s.data := by
  intro fuel
  induction fuel with
  | zero => intro s t; rfl
  | succ n ih =>
    intro s t
    rw [Engine.applyLoop]
    split
    · split
      · rw [ih]
        exact applyEvent_data s _
      · rfl
    · rfl

theorem advanceTo_machine_states (s : Engine) (t : ℚ) :
    (s.advanceTo t).machine_states
      = (s.applyLoop (min (max t s.data.start_time) s.data.end_time)
          s.data.events.length).machine_states := rfl

theorem advanceTo_pointer (s : Engine) (t : ℚ) :
    (s.advanceTo t).pointer
      = (s.applyLoop (min (max t s.data.start_time) s.data.end_time)
          s.data.events.length).pointer := rfl

theorem advanceTo_current (s : Engine) (t : ℚ) :
    (s.advanceTo t).current_time = min (max t s.data.start_time) s.data.end_time := rfl

theorem advanceTo_transports (s : Engine) (t : ℚ) :
    (s.advanceTo t).transports
      = keptTransports (min (max t s.data.start_time) s.data.end_time)
          ((s.applyLoop (min (max t s.data.start_time) s.data.end_time)
            s.data.events.length).transports) := rfl

theorem advanceTo_active (s : Engine) (t : ℚ) :
    (s.advanceTo t).active_transports
      = (keptTransports (min (max t s.data.start_time) s.data.end_time)
          ((s.applyLoop (min (max t s.data.start_time) s.data.end_time)
            s.data.events.length).transports)).map (fun kv => (kv.1, refreshClone kv.2)) := rfl

theorem advanceTo_data (s : Engine) (t : ℚ) : (s.advanceTo t).data = s.data :=
  applyLoop_data _ _ _

theorem reset_eq_init (s : Engine) : s.reset = initEngine s.data := rfl

theorem applyOp_data (s : Engine) (op : Op) : (s.applyOp op).data = s.data := by
  cases op with
  | reset => rfl
  | advance d => exact advanceTo_data _ _
  | advanceTo t => exact advanceTo_data _ _
  | seek t =>
    simp only [Engine.applyOp, Engine.seek]
    split
    · exact advanceTo_data _ _
    · exact advanceTo_data _ _

theorem applyOps_data : ∀ (ops : List Op) (s : Engine), (s.applyOps ops).data = s.data := by
  intro ops
  induction ops with
  | nil => intro s; rfl
  | cons op rest ih =>
    intro s
    show (Engine.applyOps (s.applyOp op) rest).data = s.data
    rw [ih, applyOp_data]

/-! ### The queue-floor invariant (C6) -/

/-- Every machine state reachable through the registry has `queue ≥ 0`. -/
def queueInv (ms : List (String × MachineState)) : Prop :=
  ∀ k st, dictGet ms k = some st → 0 ≤ st.queue

theorem queueInv_initStates (names : List String) :
    queueInv (names.map (fun n => (n, ({ machine := n } : MachineState)))) := by
  intro k st h
  obtain ⟨n, _, he⟩ := List.mem_map.mp (dictGet_mem h)
  obtain ⟨hk, hst⟩ := Prod.mk.inj he
  rw [← hst]

theorem queueInv_insert {ms : List (String × MachineState)} (h : queueInv ms)
    {k : String} {st : MachineState} (hst : 0 ≤ st.queue) :
    queueInv (dictInsert ms k st) := by
  intro key s hs
  rw [dictGet_insert] at hs
  by_cases hk : key = k
  · rw [if_pos hk] at hs
    injection hs with hs
    rw [← hs]
    exact hst
  · rw [if_neg hk] at hs
    exact h _ _ hs

theorem lookupState_queue {ms : List (String × MachineState)} (h : queueInv ms) (m : String) :
    0 ≤ (lookupState ms m).queue := by
  unfold lookupState
  cases hg : dictGet ms m with
  | some st => exact h _ _ hg
  | none => norm_num

theorem applyQueueOverride_queue (st : MachineState) (e : MachineEvent)
    (h : 0 ≤ st.queue) : 0 ≤ (applyQueueOverride st e).queue := by
  unfold applyQueueOverride
  cases e.queue_length with
  | none => exact h
  | some ql => exact le_max_left _ _

theorem applyKind_queue (st : MachineState) (e : MachineEvent)
    (h : 0 ≤ st.queue) : 0 ≤ (applyKind st e).queue := by
  unfold applyKind
  split_ifs <;> first | exact le_max_left _ _ | exact h

theorem applyEvent_queueInv {s : Engine} (e : MachineEvent)
    (h : queueInv s.machine_states) : queueInv (s.applyEvent e).machine_states := by
  rw [applyEvent_machine_states]
  exact queueInv_insert h
    (applyKind_queue _ _ (applyQueueOverride_queue _ _ (lookupState_queue h _)))

theorem applyLoop_queueInv : ∀ (fuel : Nat) (s : Engine) (t : ℚ),
    queueInv s.machine_states → queueInv (s.applyLoop t fuel).machine_states := by
  intro fuel
  induction fuel with
  | zero => exact fun s t h => h
  | succ n ih =>
    intro s t h
    rw [Engine.applyLoop]
    split
    · split
      · exact ih _ _ (applyEvent_queueInv _ h)
      · exact h
    · exact h

theorem advanceTo_queueInv {s : Engine} (t : ℚ) (h : queueInv s.machine_states) :
    queueInv (s.advanceTo t).machine_states := by
  rw [advanceTo_machine_states]
  exact applyLoop_queueInv _ _ _ h

theorem reset_queueInv (s : Engine) : queueInv (s.reset).machine_states :=
  queueInv_initStates s.data.machines

theorem applyOp_queueInv {s : Engine} (op : Op) (h : queueInv s.machine_states) :
    queueInv (s.applyOp op).machine_states := by
  cases op with
  | reset => exact reset_queueInv s
  | advance d => exact advanceTo_queueInv _ h
  | advanceTo t => exact advanceTo_queueInv _ h
  | seek t =>
    simp only [Engine.applyOp, Engine.seek]
    split
    · exact advanceTo_queueInv _ (reset_queueInv s)
    · exact advanceTo_queueInv _ h

theorem applyOps_queueInv : ∀ (ops : List Op) (s : Engine),
    queueInv s.machine_states → queueInv (s.applyOps ops).machine_states := by
  intro ops
  induction ops with
  | nil => exact fun s h => h
  | cons op rest ih =>
    intro s h
    exact ih _ (applyOp_queueInv op h)

theorem initEngine_queueInv (d : SimulationData) : queueInv (initEngine d).machine_states :=
  queueInv_initStates d.machines

/-! ### Pointer monotonicity (C7) -/

theorem applyLoop_pointer_le : ∀ (fuel : Nat) (s : Engine) (t : ℚ),
    s.pointer ≤ (s.applyLoop t fuel).pointer := by
  intro fuel
  induction fuel with
  | zero => intro s t; exact le_refl _
  | succ n ih =>
    intro s t
    rw [Engine.applyLoop]
    split
    · rename_i e hget
      split
      · exact le_trans (Nat.le_succ _) (ih { s.applyEvent e with pointer := s.pointer + 1 } t)
      · exact le_refl _
    · exact le_refl _

theorem advanceTo_pointer_le (s : Engine) (t : ℚ) : s.pointer ≤ (s.advanceTo t).pointer := by
  rw [advanceTo_pointer]
  exact applyLoop_pointer_le _ _ _

theorem appliedIndices_mem_ge : ∀ (ts : List ℚ) (s : Engine) (x : Nat),
    x ∈ s.appliedIndices ts → s.pointer ≤ x := by
  intro ts
  induction ts with
  | nil =>
    intro s x hx
    simp [Engine.appliedIndices] at hx
  | cons t rest ih =>
    intro s x hx
    simp only [Engine.appliedIndices, List.mem_append] at hx
    rcases hx with hx | hx
    · exact (List.mem_range'_1.mp hx).1
    · exact le_trans (advanceTo_pointer_le s t) (ih _ _ hx)

theorem appliedIndices_nodup : ∀ (ts : List ℚ) (s : Engine), (s.appliedIndices ts).Nodup := by
  intro ts
  induction ts with
  | nil => intro s; exact List.nodup_nil
  | cons t rest ih =>
    intro s
    simp only [Engine.appliedIndices]
    rw [List.nodup_append]
    refine ⟨List.nodup_range' _ _, ih _, ?_⟩
    intro x hx hx2
    have h1 := (List.mem_range'_1.mp hx).2
    have h2 := appliedIndices_mem_ge rest _ x hx2
    have h3 : s.pointer + ((s.advanceTo t).pointer - s.pointer) = (s.advanceTo t).pointer :=
      Nat.add_sub_cancel' (advanceTo_pointer_le s t)
    omega

theorem advanceTrace_pointer_chain : ∀ (ts : List ℚ) (s : Engine),
    List.Chain' (· ≤ ·) ((s.advanceTrace ts).map Engine.pointer) := by
  intro ts
  induction ts with
  | nil => intro s; simp [Engine.advanceTrace]
  | cons t rest ih =>
    intro s
    simp only [Engine.advanceTrace, List.map_cons]
    rw [List.chain'_cons']
    refine ⟨?_, ih _⟩
    intro b hb
    have hh : (List.map Engine.pointer ((s.advanceTo t).advanceTrace rest)).head?
        = some (s.advanceTo t).pointer := by
      cases rest <;> rfl
    rw [hh] at hb
    injection hb with hb
    rw [← hb]
    exact advanceTo_pointer_le s t

/-! ### Transport absence invariant (C3) -/

/-- No event of the list is a `TRANSPORT_START` with identity key `k`. -/
def noStartKey (k : String × String) (evs : List MachineEvent) : Prop :=
  ∀ e ∈ evs, e.event = "TRANSPORT_START" → transportKey e ≠ k

theorem handleTransportReg_none {reg : List ((String × String) × Transport)}
    {k : String × String} (e : MachineEvent) (h : dictGet reg k = none)
    (he : e.event = "TRANSPORT_START" → transportKey e ≠ k) :
    dictGet (handleTransportReg reg e) k = none := by
  simp only [handleTransportReg]
  split
  · rename_i hs
    rw [dictGet_insert, if_neg (fun hh => he hs hh.symm)]
    exact h
  · split
    · split
      · rename_i t hget
        have hne : ¬ k = transportKey e := by
          intro hh
          rw [← hh, h] at hget
          cases hget
        rw [dictGet_insert, if_neg hne]
        exact h
      · exact h
    · split
      · split
        · rename_i t hget
          have hne : transportKey e ≠ k := by
            intro hh
            rw [hh, h] at hget
            cases hget
          rw [dictGet_erase_ne _ hne]
          exact h
        · exact h
      · exact h

theorem applyEvent_transports_none {s : Engine} {k : String × String} (e : MachineEvent)
    (h : dictGet s.transports k = none)
    (he : e.event = "TRANSPORT_START" → transportKey e ≠ k) :
    dictGet (s.applyEvent e).transports k = none := by
  rw [applyEvent_transports]
  split
  · exact handleTransportReg_none e h he
  · exact h

theorem noStartKey_mono {k : String × String} {l l1 : List MachineEvent}
    (hsub : l1 ⊆ l) (h : noStartKey k l) : noStartKey k l1 :=
  fun e he => h e (hsub he)

theorem drop_subset_drop {α : Type} (l : List α) {p q : Nat} (h : p ≤ q) :
    l.drop q ⊆ l.drop p := by
  have hd : List.drop (q - p) (List.drop p l) = List.drop q l := by
    rw [List.drop_drop, Nat.add_sub_cancel' h]
  rw [← hd]
  exact List.drop_subset _ _

/-- No `TRANSPORT_START` with key `k` among the events the engine has not
yet consumed (the events at or after the read pointer); these are the
only events a forward move can apply. -/
def noLaterStart (k : String × String) (x : Engine) : Prop :=
  noStartKey k (x.data.events.drop x.pointer)

theorem applyLoop_transports_none : ∀ (fuel : Nat) (s : Engine) (t : ℚ) (k : String × String),
    dictGet s.transports k = none → noLaterStart k s →
    dictGet (s.applyLoop t fuel).transports k = none := by
  intro fuel
  induction fuel with
  | zero => exact fun s t k h _ => h
  | succ n ih =>
    intro s t k h hlog
    rw [Engine.applyLoop]
    split
    · rename_i e hget
      split
      · have hmem : e ∈ s.data.events.drop s.pointer := by
          have h0 : (s.data.events.drop s.pointer)[0]? = some e := by
            rw [List.getElem?_drop]
            simpa using hget
          obtain ⟨hlt, hEq⟩ := List.getElem?_eq_some.mp h0
          exact hEq ▸ List.getElem_mem _
        refine ih _ t k (applyEvent_transports_none e h (hlog e hmem)) ?_
        show noStartKey k ((s.applyEvent e).data.events.drop (s.pointer + 1))
        rw [applyEvent_data]
        exact noStartKey_mono (drop_subset_drop _ (Nat.le_succ _)) hlog
      · exact h
    · exact h

theorem keptTransports_none {current : ℚ} {reg : List ((String × String) × Transport)}
    {k : String × String} (h : dictGet reg k = none) :
    dictGet (keptTransports current reg) k = none :=
  dictGet_filter_none _ h

theorem advanceTo_transports_none {s : Engine} {k : String × String} (t : ℚ)
    (h : dictGet s.transports k = none) (hlog : noLaterStart k s) :
    dictGet (s.advanceTo t).transports k = none := by
  rw [advanceTo_transports]
  exact keptTransports_none (applyLoop_transports_none _ _ _ _ h hlog)

theorem advanceTo_active_none {s : Engine} {k : String × String} (t : ℚ)
    (h : dictGet s.transports k = none) (hlog : noLaterStart k s) :
    dictGet (s.advanceTo t).active_transports k = none := by
  rw [advanceTo_active]
  exact dictGet_mapSnd_none _ (keptTransports_none (applyLoop_transports_none _ _ _ _ h hlog))

/-- The transport with key `k` is tracked neither in the registry nor in
the active snapshot. -/
def transportAbsent (k : String × String) (s : Engine) : Prop :=
  dictGet s.transports k = none ∧ dictGet s.active_transports k = none

/-- The claim's unless-clause, rendered per operation: the operation can
consume no `TRANSPORT_START` with key `k`. A `reset` consumes nothing;
`advance`, `advance_to` and a forward `seek` consume only events at or
after the read pointer; a backward `seek` resets and replays from the
start of the log, so there the whole log is in play. -/
def opStartSafe (k : String × String) (x : Engine) : Op → Prop
  | Op.reset => True
  | Op.advance _ => noLaterStart k x
  | Op.advanceTo _ => noLaterStart k x
  | Op.seek t =>
    if t < x.current_time then noStartKey k x.data.events else noLaterStart k x

/-- `opStartSafe` holding at every step along an operation sequence. -/
def seqStartSafe (k : String × String) : Engine → List Op → Prop
  | _, [] => True
  | x, op :: rest => opStartSafe k x op ∧ seqStartSafe k (x.applyOp op) rest

theorem applyOp_transportAbsent {k : String × String} {x : Engine} (op : Op)
    (h : transportAbsent k x) (hsafe : opStartSafe k x op) :
    transportAbsent k (x.applyOp op) := by
  cases op with
  | reset => exact ⟨rfl, rfl⟩
  | advance d => exact ⟨advanceTo_transports_none _ h.1 hsafe, advanceTo_active_none _ h.1 hsafe⟩
  | advanceTo t => exact ⟨advanceTo_transports_none _ h.1 hsafe, advanceTo_active_none _ h.1 hsafe⟩
  | seek t =>
    simp only [Engine.applyOp, Engine.seek]
    simp only [opStartSafe] at hsafe
    split
    · rename_i hlt
      rw [if_pos hlt] at hsafe
      have hres : noLaterStart k x.reset := by
        show noStartKey k (x.reset.data.events.drop 0)
        rw [List.drop_zero]
        exact hsafe
      exact ⟨advanceTo_transports_none _ rfl hres, advanceTo_active_none _ rfl hres⟩
    · rename_i hge
      rw [if_neg hge] at hsafe
      exact ⟨advanceTo_transports_none _ h.1 hsafe, advanceTo_active_none _ h.1 hsafe⟩

theorem applyOps_transportAbsent : ∀ (ops : List Op) {k : String × String} (x : Engine),
    transportAbsent k x → seqStartSafe k x ops →
    transportAbsent k (x.applyOps ops) := by
  intro ops
  induction ops with
  | nil => exact fun x h _ => h
  | cons op rest ih =>
    intro k x h hsafe
    exact ih _ (applyOp_transportAbsent op h hsafe.1) hsafe.2

/-! ### Backward seek is a fresh replay (C2) -/

theorem seek_lt_eq_fresh (s : Engine) (T : ℚ) (h : T < s.current_time) :
    s.seek T = (initEngine s.data).advanceTo T := by
  unfold Engine.seek
  rw [if_pos h, reset_eq_init]

/-! ### Sorting and construction lemmas (C8, C10) -/

theorem insertByTime_length (e : MachineEvent) : ∀ (l : List MachineEvent),
    (insertByTime e l).length = l.length + 1 := by
  intro l
  induction l with
  | nil => rfl
  | cons x xs ih =>
    simp only [insertByTime]
    split <;> simp [ih]

theorem sortEvents_length (evs : List MachineEvent) :
    (sortEvents evs).length = evs.length := by
  have key : ∀ (l : List MachineEvent) (acc : List MachineEvent),
      (l.foldl (fun a e => insertByTime e a) acc).length = l.length + acc.length := by
    intro l
    induction l with
    | nil => intro acc; simp
    | cons e rest ih =>
      intro acc
      simp only [List.foldl_cons, List.length_cons]
      rw [ih, insertByTime_length]
      omega
  simpa using key evs []

theorem sortEvents_ne_nil {evs : List MachineEvent} (h : evs ≠ []) : sortEvents evs ≠ [] := by
  intro hs
  apply h
  have hl := sortEvents_length evs
  rw [hs] at hl
  exact List.length_eq_zero.mp hl.symm

theorem fromEvents_cons {evs : List MachineEvent} {e : MachineEvent} {rest : List MachineEvent}
    (hs : sortEvents evs = e :: rest) :
    fromEvents evs = Except.ok
      { events := e :: rest
        start_time := e.time_min
        end_time := ((e :: rest).getLast (List.cons_ne_nil e rest)).time_min
        machines := machinesOf (e :: rest) } := by
  unfold fromEvents
  rw [hs]

theorem mem_insertStr {x s : String} : ∀ {l : List String},
    x ∈ insertStr s l → x = s ∨ x ∈ l := by
  intro l
  induction l with
  | nil =>
    intro h
    simp [insertStr] at h
    exact Or.inl h
  | cons y ys ih =>
    simp only [insertStr]
    split
    · intro h
      rcases List.mem_cons.mp h with h | h
      · exact Or.inr (h ▸ List.mem_cons_self y ys)
      · rcases ih h with h | h
        · exact Or.inl h
        · exact Or.inr (List.mem_cons_of_mem _ h)
    · intro h
      rcases List.mem_cons.mp h with h | h
      · exact Or.inl h
      · exact Or.inr h

theorem mem_sortStrings {x : String} (l : List String) (h : x ∈ sortStrings l) : x ∈ l := by
  have key : ∀ (l : List String) (acc : List String),
      x ∈ l.foldl (fun a s => insertStr s a) acc → x ∈ l ∨ x ∈ acc := by
    intro l
    induction l with
    | nil => exact fun acc h => Or.inr h
    | cons s rest ih =>
      intro acc h
      rcases ih _ h with h | h
      · exact Or.inl (List.mem_cons_of_mem _ h)
      · rcases mem_insertStr h with h | h
        · exact Or.inl (h ▸ List.mem_cons_self s rest)
        · exact Or.inr h
  rcases key l [] h with h | h
  · exact h
  · cases h

theorem mem_dedupStr {x : String} : ∀ (l : List String), x ∈ dedupStr l → x ∈ l := by
  intro l
  induction l with
  | nil => exact fun h => h
  | cons y ys ih =>
    simp only [dedupStr]
    split
    · exact fun h => List.mem_cons_of_mem _ (ih h)
    · intro h
      rcases List.mem_cons.mp h with h | h
      · exact h ▸ List.mem_cons_self y ys
      · exact List.mem_cons_of_mem _ (ih h)

theorem machinesOf_no_empty (evs : List MachineEvent) : "" ∉ machinesOf evs := by
  intro h
  have h1 := mem_dedupStr _ (mem_sortStrings _ h)
  have h2 := (List.mem_filter.mp h1).2
  simp at h2

theorem fromEvents_no_empty_machine {evs : List MachineEvent} {d : SimulationData}
    (h : fromEvents evs = Except.ok d) : "" ∉ d.machines := by
  unfold fromEvents at h
  cases hs : sortEvents evs with
  | nil =>
    rw [hs] at h
    cases h
  | cons e rest =>
    rw [hs] at h
    injection h with h
    rw [← h]
    exact machinesOf_no_empty _

theorem initEngine_ms_none {d : SimulationData} (h : "" ∉ d.machines) :
    dictGet (initEngine d).machine_states "" = none := by
  apply dictGet_none_of_not_mem_keys
  show "" ∉ (d.machines.map (fun n => (n, ({ machine := n } : MachineState)))).map Prod.fst
  simpa [List.map_map, Function.comp] using h

theorem dictGet_mem_snd {α β : Type} [DecidableEq α] {l : List (α × β)} {k : α} {v : β}
    (h : dictGet l k = some v) : v ∈ l.map (fun kv => kv.2) :=
  List.mem_map_of_mem _ (dictGet_mem h)

/-! ### Concrete logs used by the claims -/

/-- `(t=0, M1, PROC_START)` of the spec scenario. -/
def ev1 : MachineEvent := { time_min := 0, machine := "M1", event := "PROC_START" }

/-- `(t=5, M1, TRANSPORT_START, product=P1, to=M2)` of the spec scenario. -/
def ev2 : MachineEvent :=
  { time_min := 5, machine := "M1", event := "TRANSPORT_START"
    product_id := "P1", to_machine := some "M2" }

/-- `(t=10, M1, PROC_END)` of the spec scenario. -/
def ev3 : MachineEvent := { time_min := 10, machine := "M1", event := "PROC_END" }

/-- `(t=15, M2, TRANSPORT_END, product=P1)` of the spec scenario. -/
def ev4 : MachineEvent :=
  { time_min := 15, machine := "M2", event := "TRANSPORT_END", product_id := "P1" }

/-- The four-event log of the spec scenario. -/
def scenarioLog : List MachineEvent := [ev1, ev2, ev3, ev4]

/-- The `SimulationData` built from `scenarioLog` (already time sorted). -/
def scenarioData : SimulationData :=
  { events := scenarioLog, start_time := 0, end_time := 15, machines := ["M1", "M2"] }

/-- `QUEUE_IN` on machine M1 at time 0. -/
def qe1 : MachineEvent := { time_min := 0, machine := "M1", event := "QUEUE_IN" }

/-- `QUEUE_IN` on machine M1 at time 10. -/
def qe2 : MachineEvent := { time_min := 10, machine := "M1", event := "QUEUE_IN" }

/-- A two-event queue log. -/
def queueData : SimulationData :=
  { events := [qe1, qe2], start_time := 0, end_time := 10, machines := ["M1"] }

/-- Transport start at time 0. -/
def te1 : MachineEvent :=
  { time_min := 0, machine := "M1", event := "TRANSPORT_START", product_id := "P1" }

/-- Transport end at time 1/2. -/
def te2 : MachineEvent :=
  { time_min := 1/2, machine := "M1", event := "TRANSPORT_END", product_id := "P1" }

/-- A second transport end for the same key at time 2.95. -/
def te3 : MachineEvent :=
  { time_min := 59/20, machine := "M1", event := "TRANSPORT_END", product_id := "P1" }

/-- A log in which the same transport key receives two end events. -/
def lateEndData : SimulationData :=
  { events := [te1, te2, te3], start_time := 0, end_time := 59/20, machines := ["M1"] }

/-- `QUEUE_OUT` carrying a negative absolute `queue_length`. -/
def qneg : MachineEvent :=
  { time_min := 0, machine := "M1", event := "QUEUE_OUT", queue_length := some (-5) }

/-- The one-event log of `qneg`. -/
def qnegData : SimulationData :=
  { events := [qneg], start_time := 0, end_time := 0, machines := ["M1"] }

/-- The state reached inside `advance_to(1)` on `lateEndData`, just
before the snapshot refresh: the loop has applied the transport start and
its first end (times 0 and 1/2), the pointer is 2, and `current_time`
has been set to the clamped target 1. Its refresh IS `advance_to(1)`. -/
def c3Mid : Engine :=
  { (initEngine lateEndData).applyLoop 1 3 with current_time := 1 }

/-- The transport tracked at `c3Mid`: ended at 1/2, past grace at time 1. -/
def c3Tr : Transport :=
  { product_id := "P1", entity_id := "", from_machine := some "M1"
    to_machine := some "M1", start_time := 0, end_time := some (1/2) }

/-- A pure-transport event whose `machine` field is the empty string. -/
def emptyMachineEv : MachineEvent :=
  { time_min := 1, machine := "", event := "TRANSPORT_START", product_id := "Q" }

/-! ### The claims -/

unseal Rat.add Rat.sub Rat.mul Rat.inv in
/-- C1, as the claim states its final step: after `advance_to(7)`,
`advance_to(15)`, `advance_to(15.2)` and `advance_to(20)` on the
scenario log, the claim asserts the transport is absent from the
active-transport snapshot; in fact it is still present, because
`advance_to` clamps 20 to `end_time = 15` and the eviction test
`current_time > end_time + 0.1` never fires. -/
theorem C1_claim_false :
    ¬ dictGet (((((initEngine scenarioData).advanceTo 7).advanceTo 15).advanceTo
        (76/5)).advanceTo 20).active_transports ("P1", "P1") = none := by
  decide

unseal Rat.add Rat.sub Rat.mul Rat.inv in
/-- C1 (amended): on the scenario log replayed from a fresh engine,
after `advance_to(7)` machine M1 is `processing` and the single active
transport `("P1","P1")` has `end_time` unset and progress 0; after
`advance_to(15)` its `end_time` is 15 and progress 1; after
`advance_to(15.2)` it is still present; after `advance_to(20)` it is
STILL present (the target is clamped to `end_time = 15`, so
`current_time` stays 15 and the grace-period eviction never fires) —
this last point is where the amendment departs from the claim. -/
theorem C1_scenario :
    fromEvents scenarioLog = Except.ok scenarioData
    ∧ (dictGet ((initEngine scenarioData).advanceTo 7).machine_states "M1").map
        MachineState.status = some "processing"
    ∧ ((initEngine scenarioData).advanceTo 7).active_transports.length = 1
    ∧ (dictGet ((initEngine scenarioData).advanceTo 7).active_transports ("P1", "P1")).map
        (fun t => (t.end_time, t.progress 7)) = some (none, 0)
    ∧ (dictGet (((initEngine scenarioData).advanceTo 7).advanceTo 15).active_transports
        ("P1", "P1")).map (fun t => (t.end_time, t.progress 15)) = some (some 15, 1)
    ∧ ¬ dictGet ((((initEngine scenarioData).advanceTo 7).advanceTo 15).advanceTo
        (76/5)).active_transports ("P1", "P1") = none
    ∧ (((((initEngine scenarioData).advanceTo 7).advanceTo 15).advanceTo
        (76/5)).advanceTo 20).current_time = 15
    ∧ ¬ dictGet (((((initEngine scenarioData).advanceTo 7).advanceTo 15).advanceTo
        (76/5)).advanceTo 20).active_transports ("P1", "P1") = none := by
  decide

unseal Rat.add Rat.sub Rat.mul Rat.inv in
/-- C2, refuted at two concrete inputs. First: on the two-`QUEUE_IN` log,
`advance_to(10)`, `advance_to(2)` then `seek(5)` leaves queue 2, while a
fresh `advance_to(5)` gives queue 1 (a forward seek replays no events the
pointer already passed). Second: on the double-`TRANSPORT_END` log,
`seek(3); seek(1); seek(3)` yields an empty active-transport snapshot,
while a fresh `advance_to(3)` still shows the transport (the refresh at
time 1 evicted the entry, so the later `TRANSPORT_END` was a no-op). -/
theorem C2_claim_false :
    (fromEvents [qe1, qe2] = Except.ok queueData
      ∧ ¬ (((initEngine queueData).applyOps
            [Op.advanceTo 10, Op.advanceTo 2, Op.seek 5]).machine_states
          = ((initEngine queueData).advanceTo 5).machine_states
        ∧ ((initEngine queueData).applyOps
            [Op.advanceTo 10, Op.advanceTo 2, Op.seek 5]).active_transports
          = ((initEngine queueData).advanceTo 5).active_transports))
    ∧ (fromEvents [te1, te2, te3] = Except.ok lateEndData
      ∧ ¬ (((initEngine lateEndData).applyOps
            [Op.seek 3, Op.seek 1, Op.seek 3]).machine_states
          = ((initEngine lateEndData).advanceTo 3).machine_states
        ∧ ((initEngine lateEndData).applyOps
            [Op.seek 3, Op.seek 1, Op.seek 3]).active_transports
          = ((initEngine lateEndData).advanceTo 3).active_transports)) := by
  decide

/-- C2 (amended): a backward seek is a fresh replay. For every engine
state `s` and target `T` with `T < current_time`, `seek T` yields exactly
the state (hence the machine-state and active-transport snapshot) of a
fresh engine over the same log after `advance_to(T)`: `seek` resets, and
`reset` restores precisely the freshly constructed state. For forward
seeks the equivalence fails (see the counterexample). -/
theorem C2_seek_backward_replay : ∀ (s : Engine) (T : ℚ), T < s.current_time →
    s.seek T = (initEngine s.data).advanceTo T :=
  seek_lt_eq_fresh

unseal Rat.add Rat.sub Rat.mul Rat.inv in
/-- C2 witness: a concrete backward seek. -/
theorem C2_seek_backward_replay_witness :
    (1 : ℚ) < ((initEngine queueData).advanceTo 10).current_time
    ∧ ((initEngine queueData).advanceTo 10).seek 1
      = (initEngine (((initEngine queueData).advanceTo 10).data)).advanceTo 1 :=
  ⟨by decide, C2_seek_backward_replay ((initEngine queueData).advanceTo 10) 1 (by decide)⟩

/-- C3: once a refresh sees a tracked transport whose `end_time` is set
and satisfies `end_time + 0.1 < current_time`, the transport is evicted
from the registry and absent from that snapshot — with no side condition
on the log — and it stays absent from the registry and from the snapshot
across every subsequent operation sequence during which no
`TRANSPORT_START` with the same key can be consumed (the claim's
unless-clause, `seqStartSafe`: for forward moves only the not-yet-read
suffix of the log is in play; a backward `seek` replays from the start).
The no-duplicate-keys hypothesis holds for every state the engine can
actually reach, since a Python dict cannot hold duplicate keys. -/
theorem C3_eviction : ∀ (s : Engine) (k : String × String) (tr : Transport) (et : ℚ),
    (s.transports.map Prod.fst).Nodup →
    dictGet s.transports k = some tr →
    tr.end_time = some et →
    et + 1/10 < s.current_time →
    (dictGet (s.refreshActiveTransports).transports k = none
      ∧ dictGet (s.refreshActiveTransports).active_transports k = none)
    ∧ ∀ ops : List Op, seqStartSafe k s.refreshActiveTransports ops →
        dictGet ((s.refreshActiveTransports).applyOps ops).transports k = none
        ∧ dictGet ((s.refreshActiveTransports).applyOps ops).active_transports k = none := by
  intro s k tr et hnd hget hend hlt
  have hevict : shouldEvict s.current_time tr = true := by
    simp only [shouldEvict, hend, decide_eq_true_eq]
    exact hlt
  have h1 : dictGet (keptTransports s.current_time s.transports) k = none := by
    apply dictGet_filter_of_unique _ hnd hget
    simp [hevict]
  have habs : transportAbsent k s.refreshActiveTransports :=
    ⟨h1, dictGet_mapSnd_none _ h1⟩
  exact ⟨habs, fun ops hsafe => applyOps_transportAbsent ops _ habs hsafe⟩

unseal Rat.add Rat.sub Rat.mul Rat.inv in
/-- C3 witness, at a state the engine itself produces: inside
`advance_to(1)` on `lateEndData` the tracked transport ended at 1/2 and
1/2 + 0.1 < 1, so the refresh completing that call evicts it; the only
unconsumed event is a `TRANSPORT_END`, so `advance_to(3)` keeps it
absent. -/
theorem C3_eviction_witness :
    (initEngine lateEndData).advanceTo 1 = c3Mid.refreshActiveTransports
    ∧ ((c3Mid.transports.map Prod.fst).Nodup
      ∧ dictGet c3Mid.transports ("P1", "P1") = some c3Tr
      ∧ c3Tr.end_time = some (1/2)
      ∧ (1/2 : ℚ) + 1/10 < c3Mid.current_time)
    ∧ (dictGet (c3Mid.refreshActiveTransports).transports ("P1", "P1") = none
      ∧ dictGet (c3Mid.refreshActiveTransports).active_transports ("P1", "P1") = none)
    ∧ dictGet ((c3Mid.refreshActiveTransports).applyOps [Op.advanceTo 3]).transports
        ("P1", "P1") = none
    ∧ dictGet ((c3Mid.refreshActiveTransports).applyOps [Op.advanceTo 3]).active_transports
        ("P1", "P1") = none := by
  have h := C3_eviction c3Mid ("P1", "P1") c3Tr (1/2) (by decide) (by decide) (by decide)
    (by decide)
  have hsafe : seqStartSafe ("P1", "P1") c3Mid.refreshActiveTransports [Op.advanceTo 3] := by
    refine ⟨?_, trivial⟩
    show noStartKey ("P1", "P1")
      ((c3Mid.refreshActiveTransports).data.events.drop (c3Mid.refreshActiveTransports).pointer)
    unfold noStartKey
    decide
  have h2 := h.2 [Op.advanceTo 3] hsafe
  exact ⟨by decide, ⟨by decide, by decide, by decide, by decide⟩, h.1, h2.1, h2.2⟩

/-- C4: an event that both carries `queue_length` and has kind `QUEUE_IN`
or `QUEUE_OUT` first applies the absolute override `max(0, queue_length)`
and then the implicit ±1 adjustment on top of it, leaving the machine
entry with queue `max(0, max(0, queue_length) + 1)` resp.
`max(0, max(0, queue_length) - 1)`. -/
theorem C4_override_then_adjust : ∀ (s : Engine) (e : MachineEvent) (ql : Int),
    e.queue_length = some ql →
    (e.event = "QUEUE_IN" →
      ∃ st, dictGet (s.applyEvent e).machine_states e.machine = some st
        ∧ st.queue = max 0 (max 0 ql + 1))
    ∧ (e.event = "QUEUE_OUT" →
      ∃ st, dictGet (s.applyEvent e).machine_states e.machine = some st
        ∧ st.queue = max 0 (max 0 ql - 1)) := by
  intro s e ql hql
  constructor <;> intro he <;>
    refine ⟨_, by rw [applyEvent_machine_states, dictGet_insert, if_pos rfl], ?_⟩ <;>
    simp [applyKind, applyQueueOverride, he, hql, String.reduceEq]

unseal Rat.add Rat.sub Rat.mul Rat.inv in
/-- C4 witness: a `QUEUE_IN` event with `queue_length = -5` yields queue
`max(0, max(0, -5) + 1) = 1` (and the `QUEUE_OUT` implication holds
vacuously). -/
theorem C4_override_then_adjust_witness :
    ∃ st, dictGet ((initEngine qnegData).applyEvent
        { time_min := 0, machine := "M1", event := "QUEUE_IN", queue_length := some (-5) }).machine_states
        "M1" = some st ∧ st.queue = max 0 (max 0 (-5 : Int) + 1) :=
  (C4_override_then_adjust (initEngine qnegData)
      { time_min := 0, machine := "M1", event := "QUEUE_IN", queue_length := some (-5) }
      (-5) rfl).1 rfl

/-- C5: `Transport.progress` returns 0 when `end_time` is unset, 1 when
the duration `end_time - start_time` is nonpositive, and the clamp of
`(clock - start_time) / duration` into `[0, 1]` otherwise; in every case
the result lies in `[0, 1]`. -/
theorem C5_progress_bounds : ∀ (t : Transport) (clock : ℚ),
    (t.progress clock = match t.end_time with
      | none => 0
      | some et =>
        if et - t.start_time ≤ 0 then 1
        else max 0 (min 1 ((clock - t.start_time) / (et - t.start_time))))
    ∧ 0 ≤ t.progress clock ∧ t.progress clock ≤ 1 := by
  intro t clock
  refine ⟨rfl, ?_, ?_⟩
  · cases h : t.end_time with
    | none => simp [Transport.progress, h]
    | some et =>
      simp only [Transport.progress, h]
      split_ifs with hdur
      · norm_num
      · exact le_max_left _ _
  · cases h : t.end_time with
    | none => simp [Transport.progress, h]
    | some et =>
      simp only [Transport.progress, h]
      split_ifs with hdur
      · norm_num
      · exact max_le (by norm_num) (min_le_left _ _)

/-- C6: in every state reachable from a fresh engine by any sequence of
reset / advance / advance_to / seek calls, over any log (negative
`queue_length` values included), every machine state in the registry has
a non-negative queue. -/
theorem C6_queue_floor : ∀ (d : SimulationData) (ops : List Op) (k : String)
    (st : MachineState),
    dictGet ((initEngine d).applyOps ops).machine_states k = some st → 0 ≤ st.queue :=
  fun d ops k st h => applyOps_queueInv ops _ (initEngine_queueInv d) k st h

/-- The machine state `qnegData` produces for M1 at time 0. -/
def qnegState : MachineState :=
  { machine := "M1", queue := 0, status := "idle", last_event := some "QUEUE_OUT" }

unseal Rat.add Rat.sub Rat.mul Rat.inv in
/-- C6 witness: the negative `queue_length` log still yields queue 0. -/
theorem C6_queue_floor_witness :
    dictGet ((initEngine qnegData).applyOps [Op.advanceTo 0]).machine_states "M1"
      = some qnegState
    ∧ (0 : Int) ≤ qnegState.queue :=
  ⟨by decide, C6_queue_floor qnegData [Op.advanceTo 0] "M1" qnegState (by decide)⟩

/-- C7: the pointer never decreases during a single `advance_to` (every
prefix of the loop only increments it), the pointer trace along any
sequence of non-decreasing `advance_to` targets is non-decreasing, and
the event-log indices consumed across the sequence are pairwise distinct,
so no event is applied twice. -/
theorem C7_pointer_monotone : ∀ (s : Engine) (ts : List ℚ),
    List.Chain' (· ≤ ·) ts →
    (∀ (T : ℚ) (fuel : Nat), s.pointer ≤ (s.applyLoop T fuel).pointer)
    ∧ List.Chain' (· ≤ ·) ((s.advanceTrace ts).map Engine.pointer)
    ∧ (s.appliedIndices ts).Nodup :=
  fun s ts _ =>
    ⟨fun T fuel => applyLoop_pointer_le fuel s T,
     advanceTrace_pointer_chain ts s,
     appliedIndices_nodup ts s⟩

unseal Rat.add Rat.sub Rat.mul Rat.inv in
/-- C7 witness: the scenario log advanced to 3 then 15. -/
theorem C7_pointer_monotone_witness :
    (initEngine scenarioData).pointer
      ≤ ((initEngine scenarioData).applyLoop 7 2).pointer
    ∧ List.Chain' (· ≤ ·)
        (((initEngine scenarioData).advanceTrace [3, 15]).map Engine.pointer)
    ∧ ((initEngine scenarioData).appliedIndices [3, 15]).Nodup := by
  have h := C7_pointer_monotone (initEngine scenarioData) [3, 15]
    (by norm_num [List.chain'_cons, List.chain'_singleton])
  exact ⟨h.1 7 2, h.2.1, h.2.2⟩

/-- C8: constructing the log container from zero events yields the
error (`ValueError` in the code, the spec's `EmptyLogError`); from a
non-empty collection it succeeds, with `start_time` the time of the first
sorted event and `end_time` the time of the last. -/
theorem C8_empty_log : fromEvents [] = Except.error "No events available in the dataset"
    ∧ ∀ (evs : List MachineEvent), evs ≠ [] →
      ∃ (d : SimulationData) (hd lst : MachineEvent),
        fromEvents evs = Except.ok d
        ∧ (sortEvents evs).head? = some hd
        ∧ (sortEvents evs).getLast? = some lst
        ∧ d.start_time = hd.time_min
        ∧ d.end_time = lst.time_min := by
  constructor
  · rfl
  · intro evs h
    have hne := sortEvents_ne_nil h
    cases hs : sortEvents evs with
    | nil => exact absurd hs hne
    | cons e rest =>
      refine ⟨_, e, (e :: rest).getLast (List.cons_ne_nil e rest),
        fromEvents_cons hs, ?_, ?_, rfl, rfl⟩
      · rfl
      · exact List.getLast?_eq_getLast _ _

/-- C8 witness: the singleton log `[ev1]`. -/
theorem C8_empty_log_witness :
    ([ev1] : List MachineEvent) ≠ []
    ∧ ∃ (d : SimulationData) (hd lst : MachineEvent),
        fromEvents [ev1] = Except.ok d
        ∧ (sortEvents [ev1]).head? = some hd
        ∧ (sortEvents [ev1]).getLast? = some lst
        ∧ d.start_time = hd.time_min
        ∧ d.end_time = lst.time_min :=
  ⟨by decide, C8_empty_log.2 [ev1] (by decide)⟩

/-- C9: a `TRANSPORT_END` whose identity key has no registry entry leaves
the transport registry unchanged (the event is silently dropped; the
model is a total function, mirroring that the code raises nothing), and
likewise for `TRANSPORT_CANCEL`. -/
theorem C9_end_cancel_noop : ∀ (s : Engine) (e : MachineEvent),
    dictGet s.transports (transportKey e) = none →
    (e.event = "TRANSPORT_END" → (s.applyEvent e).transports = s.transports)
    ∧ (e.event = "TRANSPORT_CANCEL" → (s.applyEvent e).transports = s.transports) := by
  intro s e h
  constructor <;> intro he <;> rw [applyEvent_transports, he] <;>
    rw [if_pos (by decide)] <;>
    simp [handleTransportReg, he, h, String.reduceEq]

/-- C9 witness: `ev4` (a `TRANSPORT_END`) applied to a fresh engine whose
registry is empty. -/
theorem C9_end_cancel_noop_witness :
    dictGet (initEngine scenarioData).transports (transportKey ev4) = none
    ∧ ((initEngine scenarioData).applyEvent ev4).transports
      = (initEngine scenarioData).transports :=
  ⟨rfl, (C9_end_cancel_noop (initEngine scenarioData) ev4 rfl).1 rfl⟩

/-- C10: for a log container built by `fromEvents` the machine registry
of a fresh engine has no entry keyed by the empty string (machines are
filtered on truthiness), yet applying any event whose `machine` is `""`
lazily creates such an entry, which then shows up among `iter_states`. -/
theorem C10_lazy_empty_machine : ∀ (evs : List MachineEvent) (d : SimulationData)
    (e : MachineEvent),
    fromEvents evs = Except.ok d → e.machine = "" →
    dictGet (initEngine d).machine_states "" = none
    ∧ ∃ st, dictGet ((initEngine d).applyEvent e).machine_states "" = some st
        ∧ st ∈ ((initEngine d).applyEvent e).iterStates := by
  intro evs d e hfe hm
  refine ⟨initEngine_ms_none (fromEvents_no_empty_machine hfe), ?_⟩
  have hms := applyEvent_machine_states (initEngine d) e
  rw [hm] at hms
  have hget : dictGet ((initEngine d).applyEvent e).machine_states ""
      = some (applyKind (applyQueueOverride
          { lookupState (initEngine d).machine_states "" with
            last_event := some e.event } e) e) := by
    rw [hms, dictGet_insert, if_pos rfl]
  exact ⟨_, hget, dictGet_mem_snd hget⟩

unseal Rat.add Rat.sub Rat.mul Rat.inv in
/-- C10 witness: a pure-transport event with empty `machine` on the
scenario log. -/
theorem C10_lazy_empty_machine_witness :
    fromEvents scenarioLog = Except.ok scenarioData
    ∧ emptyMachineEv.machine = ""
    ∧ (dictGet (initEngine scenarioData).machine_states "" = none
      ∧ ∃ st, dictGet ((initEngine scenarioData).applyEvent emptyMachineEv).machine_states ""
            = some st
          ∧ st ∈ ((initEngine scenarioData).applyEvent emptyMachineEv).iterStates) :=
  ⟨by decide, rfl, C10_lazy_empty_machine scenarioLog scenarioData emptyMachineEv (by decide) rfl⟩

end Sim
